import Mathlib

/-!
Shallow embedding of the omake core (parser / expander / executor pipeline)
and proofs about it.  Each definition is translated from the repository's
Rust source; the file reference is given in the doc comment.  Machine
integers do not occur in the modelled code paths; modification times are
modelled as natural numbers (seconds since the Unix epoch, which itself is
modelled as 0).  Filesystem access, the shell subprocess and the clock are
modelled as oracles carried in an `ExecEnv` record, and all observable
output (stdout echoes, shell spawns, logger info/warn lines) is collected
in an event list.
-/

namespace Omake

/-- A variable value together with its recursive (deferred) flag.
From `src/src/vars.rs`, `struct Var`. -/
structure Var where
  value : String
  recursive : Bool
deriving DecidableEq, Repr

/-- The variable store.  The Rust code wraps a `HashMap<String, Var>`; only
`get` (first match) and `insert` (overwrite) are used on it, so it is
modelled as an association list where insertion conses in front and lookup
returns the first hit.  From `src/src/vars.rs`, `struct Vars`. -/
structure Vars where
  map : List (String × Var)
deriving DecidableEq, Repr

/-- `str::trim` over the character list (structurally recursive so that
concrete runs reduce; Rust trims Unicode whitespace, of which only the
ASCII cases occur in the inputs treated here). -/
def strTrim (s : String) : String :=
  ⟨((s.data.dropWhile Char.isWhitespace).reverse.dropWhile Char.isWhitespace).reverse⟩

/-- `str::trim_start`. -/
def strTrimStart (s : String) : String := ⟨s.data.dropWhile Char.isWhitespace⟩

/-- `str::starts_with` for a string pattern. -/
def strStartsWith (s pre : String) : Bool := pre.data.isPrefixOf s.data

/-- The remainder of `str::strip_prefix` once the prefix is known to be
present: drop the pattern's characters. -/
def strDropLen (s : String) (n : Nat) : String := ⟨s.data.drop n⟩

/-- `str::split_once`: the text before and after the first occurrence of
the separator, or `none`. -/
def splitOnceGo (sep : Char) : List Char → Option (List Char × List Char)
  | [] => none
  | c :: rest =>
    if c = sep then some ([], rest)
    else (splitOnceGo sep rest).map (fun p => (c :: p.1, p.2))

/-- `str::split_once` on strings. -/
def splitOnce (s : String) (sep : Char) : Option (String × String) :=
  (splitOnceGo sep s.data).map (fun p => (⟨p.1⟩, ⟨p.2⟩))

/-- `str::split_whitespace` collected into a list of words. -/
def splitWhitespaceGo : List Char → List Char → List String
  | [], acc => if acc = [] then [] else [⟨acc.reverse⟩]
  | c :: rest, acc =>
    if c.isWhitespace then
      if acc = [] then splitWhitespaceGo rest []
      else ⟨acc.reverse⟩ :: splitWhitespaceGo rest []
    else splitWhitespaceGo rest (c :: acc)

/-- `str::split_whitespace` on strings: maximal runs of non-whitespace. -/
def splitWhitespace (s : String) : List String := splitWhitespaceGo s.data []

/-- First-match association lookup, the model of `HashMap::get`. -/
def lookupVar : List (String × Var) → String → Option Var
  | [], _ => none
  | (k, v) :: rest, key => if k = key then some v else lookupVar rest key

/-- The `blank` constant `Var` of `Vars` (empty value, not recursive). -/
def blankVar : Var := ⟨"", false⟩

/-- The `default_recipe_prefix` constant `Var` of `Vars`: a single tab. -/
def defaultRecipePrefixVar : Var := ⟨"\t", false⟩

/-- `Vars::get` from `src/src/vars.rs`: trim the key; `.RECIPEPREFIX`
falls back to the default tab when unset or stored blank; any other unset
key yields the blank `Var`.  (The copy in `src/src/lib/vars.rs` differs
only in not trimming the key, which no theorem below depends on.) -/
def Vars.get (vars : Vars) (k : String) : Var :=
  let k := strTrim k
  if k = ".RECIPEPREFIX" then
    match lookupVar vars.map k with
    | none => defaultRecipePrefixVar
    | some var => if var.value = "" then defaultRecipePrefixVar else var
  else
    match lookupVar vars.map k with
    | none => blankVar
    | some var => var

/-- The validation loop of `Vars::set`: the first offending character of
the trimmed name decides the error message. -/
def checkName : List Char → Option String
  | [] => none
  | c :: rest =>
    if c.isWhitespace then some "Variable contains whitespace."
    else if c = ':' ∨ c = '#' ∨ c = '=' then
      some ("Variable contains bad character '" ++ String.singleton c ++ "'.")
    else checkName rest

/-- `Vars::set` from `src/src/vars.rs`: trim the name, reject whitespace
and the characters `:`, `#`, `=`, otherwise insert unconditionally
(overwriting any previous entry, here by consing in front). -/
def Vars.set (vars : Vars) (k v : String) (recursive : Bool) : Except String Vars :=
  let k := strTrim k
  match checkName k.data with
  | some e => .error e
  | none => .ok ⟨(k, ⟨v, recursive⟩) :: vars.map⟩

/-- `DEFAULT_VARS` from `src/src/vars.rs`. -/
def DEFAULT_VARS : List (String × String) :=
  [("AR", "ar"), ("ARFLAGS", "rv"), ("AS", "as"), ("CC", "cc"), ("CO", "co"),
   ("CTANGLE", "ctangle"), ("CWEAVE", "cweave"), ("CXX", "c++"), ("FC", "f77"),
   ("GET", "get"), ("LD", "ld"), ("LEX", "lex"), ("LINT", "lint"), ("M2C", "m2c"),
   ("OBJC", "cc"), ("PC", "pc"), ("RM", "rm -f"), ("TANGLE", "tangle"),
   ("TEX", "tex"), ("WEAVE", "weave"), ("YACC", "yacc")]

/-- `DEFAULT_RECURSIVE_VARS` from `src/src/vars.rs`. -/
def DEFAULT_RECURSIVE_VARS : List (String × String) :=
  [("OUTPUT_OPTION", "-o $@"),
   ("CPP", "$(CC) -E"), ("F77", "$(FC)"), ("F77FLAGS", "$(FFLAGS)"),
   ("LEX.m", "$(LEX) $(LFLAGS) -t"), ("YACC.m", "$(YACC) $(YFLAGS)"),
   ("YACC.y", "$(YACC) $(YFLAGS)"),
   ("COMPILE.C", "$(COMPILE.cc)"),
   ("COMPILE.F", "$(FC) $(FFLAGS) $(CPPFLAGS) $(TARGET_ARCH) -c"),
   ("COMPILE.S", "$(CC) $(ASFLAGS) $(CPPFLAGS) $(TARGET_MACH) -c"),
   ("COMPILE.c", "$(CC) $(CFLAGS) $(CPPFLAGS) $(TARGET_ARCH) -c"),
   ("COMPILE.cc", "$(CXX) $(CXXFLAGS) $(CPPFLAGS) $(TARGET_ARCH) -c"),
   ("COMPILE.cpp", "$(COMPILE.cc)"),
   ("COMPILE.def", "$(M2C) $(M2FLAGS) $(DEFFLAGS) $(TARGET_ARCH)"),
   ("COMPILE.f", "$(FC) $(FFLAGS) $(TARGET_ARCH) -c"),
   ("COMPILE.m", "$(OBJC) $(OBJCFLAGS) $(CPPFLAGS) $(TARGET_ARCH) -c"),
   ("COMPILE.mod", "$(M2C) $(M2FLAGS) $(MODFLAGS) $(TARGET_ARCH)"),
   ("COMPILE.p", "$(PC) $(PFLAGS) $(CPPFLAGS) $(TARGET_ARCH) -c"),
   ("COMPILE.r", "$(FC) $(FFLAGS) $(RFLAGS) $(TARGET_ARCH) -c"),
   ("COMPILE.s", "$(AS) $(ASFLAGS) $(TARGET_MACH)"),
   ("LINK.C", "$(LINK.cc)"),
   ("LINK.F", "$(FC) $(FFLAGS) $(CPPFLAGS) $(LDFLAGS) $(TARGET_ARCH)"),
   ("LINK.S", "$(CC) $(ASFLAGS) $(CPPFLAGS) $(LDFLAGS) $(TARGET_MACH)"),
   ("LINK.c", "$(CC) $(CFLAGS) $(CPPFLAGS) $(LDFLAGS) $(TARGET_ARCH)"),
   ("LINK.cc", "$(CXX) $(CXXFLAGS) $(CPPFLAGS) $(LDFLAGS) $(TARGET_ARCH)"),
   ("LINK.cpp", "$(LINK.cc)"),
   ("LINK.f", "$(FC) $(FFLAGS) $(LDFLAGS) $(TARGET_ARCH)"),
   ("LINK.m", "$(OBJC) $(OBJCFLAGS) $(CPPFLAGS) $(LDFLAGS) $(TARGET_ARCH)"),
   ("LINK.o", "$(CC) $(LDFLAGS) $(TARGET_ARCH)"),
   ("LINK.p", "$(PC) $(PFLAGS) $(CPPFLAGS) $(LDFLAGS) $(TARGET_ARCH)"),
   ("LINK.r", "$(FC) $(FFLAGS) $(RFLAGS) $(LDFLAGS) $(TARGET_ARCH)"),
   ("LINK.s", "$(CC) $(ASFLAGS) $(LDFLAGS) $(TARGET_MACH)"),
   ("LINT.c", "$(LINT) $(LINTFLAGS) $(CPPFLAGS) $(TARGET_ARCH)"),
   ("PREPROCESS.F", "$(FC) $(FFLAGS) $(CPPFLAGS) $(TARGET_ARCH) -F"),
   ("PREPROCESS.S", "$(CC) -E $(CPPFLAGS)"),
   ("PREPROCESS.r", "$(FC) $(FFLAGS) $(RFLAGS) $(TARGET_ARCH) -F")]

/-- `DEFAULT_SUFFIXES` from `src/src/vars.rs`. -/
def DEFAULT_SUFFIXES : List String :=
  [".C", ".F", ".S", ".c", ".cc", ".cpp", ".def", ".f", ".m", ".mod", ".p", ".r", ".s"]

/-- The `.unwrap()`ed sets inside `Vars::new`: every default name is valid,
so the error branch (a Rust panic) is unreachable and modelled as a no-op. -/
def Vars.setD (vars : Vars) (k v : String) (recursive : Bool) : Vars :=
  match Vars.set vars k v recursive with
  | .ok vars' => vars'
  | .error _ => vars

/-- `Vars::new` from `src/src/vars.rs`: defaults, recursive defaults,
`SHELL`, the two suffix lists, then the caller's initial pairs (whose `set`
errors Rust discards with `let _ =`, exactly `setD`). -/
def Vars.new (init : List (String × String)) : Vars :=
  let v : Vars := ⟨[]⟩
  let v := DEFAULT_VARS.foldl (fun acc kv => Vars.setD acc kv.1 kv.2 false) v
  let v := DEFAULT_RECURSIVE_VARS.foldl (fun acc kv => Vars.setD acc kv.1 kv.2 true) v
  let v := Vars.setD v "SHELL" "/bin/sh" false
  let v := Vars.setD v "SUFFIXES" (String.intercalate " " DEFAULT_SUFFIXES) false
  let v := Vars.setD v ".SUFFIXES" (String.intercalate " " DEFAULT_SUFFIXES) false
  init.foldl (fun acc kv => Vars.setD acc kv.1 kv.2 false) v

/-- A stack frame of the expander, from `src/src/lib/expand.rs`,
`struct Frame`. -/
structure Frame where
  previousBuffer : String
  openingDelimiter : Char
deriving DecidableEq, Repr

/-- The character loop of `expand` from `src/src/lib/expand.rs`, one case
per arm of the Rust `match`, with the stack's top at the list head.
`recurse` is the recursive `expand` call performed on the value of a
recursive variable. -/
def expandGo (vars : Vars) (recurse : String → Except String String) :
    List Char → List Frame → String → Bool → Except String String
  | [], stack, buf, _ =>
    match stack with
    | [] => .ok buf
    | f :: _ =>
      .error ("Unclosed variable: " ++ String.singleton f.openingDelimiter ++ f.previousBuffer)
  | c :: rest, stack, buf, hitVariable =>
    if c = '$' then
      let hv := !hitVariable
      expandGo vars recurse rest stack (if hv then buf else buf.push c) hv
    else if c = '(' ∨ c = '{' then
      if !hitVariable then expandGo vars recurse rest stack (buf.push c) hitVariable
      else expandGo vars recurse rest (⟨buf, c⟩ :: stack) "" false
    else if c = ')' ∨ c = '}' then
      match stack with
      | [] => expandGo vars recurse rest [] (buf.push c) hitVariable
      | f :: stail =>
        if (c = '}' ∧ f.openingDelimiter = '{') ∨ (c = ')' ∧ f.openingDelimiter = '(') then
          let var := vars.get buf
          if var.recursive then
            match recurse var.value with
            | .error e => .error e
            | .ok res => expandGo vars recurse rest stail (f.previousBuffer ++ res) false
          else expandGo vars recurse rest stail (f.previousBuffer ++ var.value) false
        else expandGo vars recurse rest (f :: stail) (buf.push c) hitVariable
    else
      if hitVariable then
        expandGo vars recurse rest stack (buf ++ (vars.get (String.singleton c)).value) false
      else expandGo vars recurse rest stack (buf.push c) hitVariable

/-- `expand` from `src/src/lib/expand.rs`.  The Rust recursion is bounded
only by the OS stack; the fuel models that bound, and no theorem below
depends on the fuel-exhaustion branch. -/
def expand : Nat → String → Vars → Except String String
  | 0, _, _ => .error "Recursion limit exceeded."
  | fuel + 1, s, vars => expandGo vars (fun t => expand fuel t vars) s.data [] "" false

/-- The delimiter-only abstraction of the expander's single pass: the same
control flow as `expandGo`, tracking only the stack of opening delimiters
and the `hit_variable` flag.  Used to characterise when `expand` reports an
unclosed variable. -/
def scanGo : List Char → List Char → Bool → List Char
  | [], ds, _ => ds
  | c :: rest, ds, hitVariable =>
    if c = '$' then scanGo rest ds (!hitVariable)
    else if c = '(' ∨ c = '{' then
      if !hitVariable then scanGo rest ds hitVariable
      else scanGo rest (c :: ds) false
    else if c = ')' ∨ c = '}' then
      match ds with
      | [] => scanGo rest [] hitVariable
      | d :: dt =>
        if (c = '}' ∧ d = '{') ∨ (c = ')' ∧ d = '(') then scanGo rest dt false
        else scanGo rest (d :: dt) hitVariable
    else
      if hitVariable then scanGo rest ds false else scanGo rest ds hitVariable

/-- The unmatched opening delimiters a left-to-right scan of `s` leaves on
the stack, innermost (most recent) first. -/
def scanDelims (s : String) : List Char := scanGo s.data [] false

/-- The options record consumed by the executor, from
`src/src/lib/makefile/opts.rs`. -/
structure Opts where
  always_make : Bool
  ignore_errors : Bool
  just_print : Bool
  old_file : List String
  new_file : List String
deriving DecidableEq, Repr

/-- The observable output of a run: stdout echoes of recipe lines, shell
spawns, and the logger's info/warn lines. -/
inductive Event where
  | echo (line : String)
  | spawn (line : String)
  | info (msg : String)
  | warn (msg : String)
deriving DecidableEq, Repr

/-- How a run ends abnormally: a `MakeError` (its message), a Rust panic
(an `unwrap` of `None` or an out-of-bounds index), or the model's fuel
bound for the source's unbounded recursion. -/
inductive MErr where
  | mk (msg : String)
  | panicked
  | outOfFuel
deriving DecidableEq, Repr

/-- A parsed rule, from `src/src/lib/makefile/rule_map.rs`, `struct Rule`.
The `context` field (a source location used only in diagnostics) is not
modelled. -/
structure Rule where
  targets : List String
  prerequisites : List String
  recipe : List String
  double_colon : Bool
deriving DecidableEq, Repr

/-- The rule map from `src/src/lib/makefile/rule_map.rs`: append-only rule
storage plus the target-name index into it.  The Rust `by_target` is a
`HashMap`; only `get`, `get_mut` and fresh `insert` are used on it, so it
is an association list with unique keys. -/
structure RuleMap where
  rules : List Rule
  by_target : List (String × List Nat)
deriving DecidableEq, Repr

/-- First-match association lookup in `by_target`. -/
def lookupIdxs : List (String × List Nat) → String → Option (List Nat)
  | [], _ => none
  | (k, v) :: rest, key => if k = key then some v else lookupIdxs rest key

/-- Set a key's index list (the model of `HashMap::insert` for a fresh key
and of writing through `get_mut` for an existing one). -/
def btUpdate : List (String × List Nat) → String → List Nat → List (String × List Nat)
  | [], k, v => [(k, v)]
  | (k', v') :: rest, k, v =>
    if k' = k then (k, v) :: rest else (k', v') :: btUpdate rest k v

/-- `RuleMap::new`. -/
def RuleMap.new : RuleMap := ⟨[], []⟩

/-- The colon-mode conflict message of `RuleMap::insert`. -/
def colonConflictMsg : String := "Cannot define rules using `:` and `::` on the same target."

/-- The duplicate-definition warning of `RuleMap::insert`. -/
def dupWarnMsg : String := "Ignoring duplicate definition."

/-- The per-target loop of `RuleMap::insert` from
`src/src/lib/makefile/rule_map.rs`: for each target of the new rule,
create a fresh one-index entry, or — comparing against the first indexed
rule — fail on a single/double-colon mix, append the index for a
double-colon rule, or warn and leave the index list unchanged for a
duplicate single-colon rule.  `rules` is the storage after the push, so
`index` is valid in it; the `unwrap`s of the Rust code are the `panicked`
branches. -/
def insertTargets (rules : List Rule) (rule : Rule) (index : Nat) :
    List String → List (String × List Nat) →
    List (String × List Nat) × List Event × Option MErr
  | [], bt => (bt, [], none)
  | t :: ts, bt =>
    match lookupIdxs bt t with
    | none => insertTargets rules rule index ts (btUpdate bt t [index])
    | some rule_indices =>
      match rule_indices.head? with
      | none => (bt, [], some .panicked)
      | some i0 =>
        match rules[i0]? with
        | none => (bt, [], some .panicked)
        | some first =>
          if first.double_colon ≠ rule.double_colon then
            (bt, [], some (.mk colonConflictMsg))
          else if rule.double_colon then
            insertTargets rules rule index ts (btUpdate bt t (rule_indices ++ [index]))
          else
            let k := insertTargets rules rule index ts bt
            (k.1, Event.warn dupWarnMsg :: k.2.1, k.2.2)

/-- `RuleMap::insert` from `src/src/lib/makefile/rule_map.rs`: push the
rule into storage, then index it under each of its targets.  On an error
the mutations made so far persist, as they do through Rust's `&mut self`. -/
def RuleMap.insert (m : RuleMap) (rule : Rule) : RuleMap × List Event × Option MErr :=
  let index := m.rules.length
  let rules' := m.rules ++ [rule]
  let k := insertTargets rules' rule index rule.targets m.by_target
  (⟨rules', k.1⟩, k.2.1, k.2.2)

/-- A sequence of `RuleMap::insert` operations starting from the empty
map.  Each insert's state is kept whether or not it reported an error,
exactly as the mutations through Rust's `&mut self` persist. -/
def insertAll (rs : List Rule) : RuleMap :=
  rs.foldl (fun m r => (RuleMap.insert m r).1) RuleMap.new

/-- The `double_colon` flag of the rule stored at index `i`. -/
def flagAt (rules : List Rule) (i : Nat) : Option Bool :=
  rules[i]?.map (fun r => r.double_colon)

/-- A well-formed `by_target` entry: non-empty, all indices valid, all
referenced rules agree on `double_colon`, and a single-colon entry holds
exactly one index. -/
def wfEntry (rules : List Rule) (idxs : List Nat) : Prop :=
  idxs ≠ [] ∧ (∀ i ∈ idxs, i < rules.length) ∧
  (∀ i ∈ idxs, ∀ j ∈ idxs, flagAt rules i = flagAt rules j) ∧
  (∀ i ∈ idxs, flagAt rules i = some false → idxs.length = 1)

/-- The rule map invariant: every `by_target` entry is well formed. -/
def RuleMap.wf (m : RuleMap) : Prop :=
  ∀ t idxs, lookupIdxs m.by_target t = some idxs → wfEntry m.rules idxs

/-- The oracles of a run: `stat` returns `none` on a metadata error and
otherwise the (possibly failing) filesystem modification time in seconds;
`now` is the clock read by `SystemTime::now()`; `shell` maps a spawned
recipe line to its exit status (`none` models termination by signal). -/
structure ExecEnv where
  stat : String → Option (Option Nat)
  now : Nat
  shell : String → Option Int

/-- The parser/executor state, from `src/src/lib/makefile.rs`,
`struct Makefile` (the logger is replaced by the event list each operation
returns, and the `context` diagnostics are not modelled). -/
structure Makefile where
  opts : Opts
  rule_map : RuleMap
  default_target : Option String
  vars : Vars
  current_rule : Option Rule
deriving DecidableEq, Repr

/-- `Makefile::get_mtime` from `src/src/lib/makefile.rs` (the same logic
as the free `get_mtime` of `src/src/rule_map.rs`): a failed stat is
`none`; on a successful stat an `old_file` name is pinned to the epoch
(0), a `new_file` name to one year past `now`, anything else to the
filesystem time. -/
def Makefile.get_mtime (mf : Makefile) (env : ExecEnv) (file : String) : Option Nat :=
  match env.stat file with
  | some modified =>
    if file ∈ mf.opts.old_file then some 0
    else if file ∈ mf.opts.new_file then some (env.now + 365 * 24 * 60 * 60)
    else modified
  | none => none

/-- The recipe-line loop of `Rule::execute` from
`src/src/lib/makefile/rule_map.rs`.  Reading the first character of a line
is the source's `.next().unwrap()`, so an empty line is the `panicked`
branch.  The spawned command (`SHELL` plus `.SHELLFLAGS` plus the line) is
abstracted by the `shell` oracle keyed on the line; its status drives the
error handling. -/
def Rule.executeLines (opts : Opts) (env : ExecEnv) : List String → List Event × Option MErr
  | [] => ([], none)
  | line :: rest =>
    match line.data.head? with
    | none => ([], some .panicked)
    | some c =>
      let command_modifier : Option Char :=
        if c = '@' ∨ c = '-' ∨ c = '+' then some c else none
      let pre : List Event :=
        if command_modifier ≠ some '@' ∨ opts.just_print then [Event.echo line] else []
      if opts.just_print then
        let k := Rule.executeLines opts env rest
        (pre ++ k.1, k.2)
      else
        let evs := pre ++ [Event.spawn line]
        let status := env.shell line
        if command_modifier ≠ some '-' ∧ opts.ignore_errors = false then
          match status with
          | some code =>
            if code = 0 then
              let k := Rule.executeLines opts env rest
              (evs ++ k.1, k.2)
            else (evs, some (.mk ("Failed with code " ++ toString code ++ ".")))
          | none => (evs, some (.mk "Killed."))
        else
          let k := Rule.executeLines opts env rest
          (evs ++ k.1, k.2)

/-- `Rule::execute` from `src/src/lib/makefile/rule_map.rs`. -/
def Rule.execute (r : Rule) (mf : Makefile) (env : ExecEnv) : List Event × Option MErr :=
  Rule.executeLines mf.opts env r.recipe

/-- The info line logged for an up-to-date target. -/
def upToDateMsg (t : String) : String := "Target '" ++ t ++ "' is up to date."

/-- The info line logged for a target listed in `old_file`. -/
def upToDateOldMsg (t : String) : String := "Target '" ++ t ++ "' is up to date (old)."

/-- The error message for a target with no rule. -/
def noRuleMsg (t : String) : String := "No rule to make target '" ++ t ++ "'."

/-- The prerequisite loop inside `RuleMap::execute`
(`src/src/lib/makefile/rule_map.rs`, the `for prereq in
&rule.prerequisites` loop), abstracted over the recursive visit `visit`.
Returns the events, the final `should_execute` flag, and an error that
aborts the whole visit (Rust's `?`). -/
def execPrereqsGo (visit : String → List Event × Option MErr) (mf : Makefile)
    (env : ExecEnv) (tmt : Option Nat) :
    List String → Bool → List Event × Bool × Option MErr
  | [], should => ([], should, none)
  | p :: rest, should =>
    if mf.opts.always_make then
      let r := visit p
      match r.2 with
      | some e => (r.1, should, some e)
      | none =>
        let k := execPrereqsGo visit mf env tmt rest should
        (r.1 ++ k.1, k.2.1, k.2.2)
    else
      match mf.get_mtime env p with
      | none =>
        let r := visit p
        match r.2 with
        | some e => (r.1, should, some e)
        | none =>
          let k := execPrereqsGo visit mf env tmt rest true
          (r.1 ++ k.1, k.2.1, k.2.2)
      | some prereq_mtime =>
        let should' :=
          match tmt with
          | some target_mtime => if prereq_mtime > target_mtime then true else should
          | none => should
        execPrereqsGo visit mf env tmt rest should'

/-- The rule loop inside `RuleMap::execute` (`for i in rule_indices`),
abstracted over the recursive visit.  Returns the events, the `executed`
flag, and the aborting error; indexing `rules[i]` out of bounds is the
`panicked` branch. -/
def execRulesGo (visit : String → List Event × Option MErr) (mf : Makefile)
    (env : ExecEnv) (tmt : Option Nat) :
    List Nat → List Event × Bool × Option MErr
  | [] => ([], false, none)
  | i :: rest =>
    match mf.rule_map.rules[i]? with
    | none => ([], false, some .panicked)
    | some rule =>
      let p := execPrereqsGo visit mf env tmt rule.prerequisites mf.opts.always_make
      match p.2.2 with
      | some e => (p.1, false, some e)
      | none =>
        if tmt = none ∨ p.2.1 = true then
          let r := Rule.execute rule mf env
          match r.2 with
          | some e => (p.1 ++ r.1, false, some e)
          | none =>
            let k := execRulesGo visit mf env tmt rest
            (p.1 ++ r.1 ++ k.1, true, k.2.2)
        else
          let k := execRulesGo visit mf env tmt rest
          (p.1 ++ k.1, k.2.1, k.2.2)

/-- `RuleMap::execute` from `src/src/lib/makefile/rule_map.rs`: look up
the target's rules (error if none), read the target's mtime, short-cut a
target listed in `old_file`, run the rule loop, and log "up to date" when
nothing executed.  The fuel bounds the source's unbounded recursion
through prerequisites (a cyclic makefile overflows the Rust stack); every
theorem below either supplies enough fuel or is fuel-independent. -/
def RuleMap.execute : Nat → Makefile → ExecEnv → String → List Event × Option MErr
  | 0, _, _, _ => ([], some .outOfFuel)
  | fuel + 1, mf, env, target =>
    match lookupIdxs mf.rule_map.by_target target with
    | none => ([], some (.mk (noRuleMsg target)))
    | some rule_indices =>
      let target_mtime_opt := mf.get_mtime env target
      if target ∈ mf.opts.old_file then
        ([Event.info (upToDateOldMsg target)], none)
      else
        let r := execRulesGo (RuleMap.execute fuel mf env) mf env target_mtime_opt rule_indices
        match r.2.2 with
        | some e => (r.1, some e)
        | none =>
          if r.2.1 = true then (r.1, none)
          else (r.1 ++ [Event.info (upToDateMsg target)], none)

/-- The requested-target loop of `Makefile::execute`: visit each target in
order, aborting on the first error. -/
def execTargets (fuel : Nat) (mf : Makefile) (env : ExecEnv) :
    List String → List Event × Option MErr
  | [] => ([], none)
  | t :: ts =>
    let r := RuleMap.execute fuel mf env t
    match r.2 with
    | some e => (r.1, some e)
    | none =>
      let k := execTargets fuel mf env ts
      (r.1 ++ k.1, k.2)

/-- `Makefile::execute` from `src/src/lib/makefile.rs`: substitute the
default target for an empty request list (error when there is none), then
visit the targets in order. -/
def Makefile.execute (fuel : Nat) (mf : Makefile) (env : ExecEnv)
    (targets : List String) : List Event × Option MErr :=
  match targets with
  | [] =>
    match mf.default_target with
    | none => ([], some (.mk "No target specified and no default target found."))
    | some t => execTargets fuel mf env [t]
  | _ => execTargets fuel mf env targets

/-- `Makefile::parse_line` from `src/src/lib/makefile.rs`.  `efuel` is the
expander's recursion bound; the structural fuel (first `Nat`) bounds the
one level of self-recursion used to re-submit an inline (`;`) recipe.
Branches in source order: recipe line (append to the current rule after
strip/trim/expand, discarding a blank pre-expansion result); otherwise
finalize any in-progress rule (default target, then `RuleMap::insert`);
comment/blank; rule header on the first `:` (optional second `:` for
double-colon, optional `;` inline recipe, targets and prerequisites
expanded then whitespace-split); assignment on the first `=`; else
"Invalid line type.". -/
def Makefile.parse_line (efuel : Nat) :
    Nat → Makefile → String → Makefile × List Event × Option MErr
  | 0, st, _ => (st, [], some .outOfFuel)
  | fuel + 1, st, line =>
    let rp := (st.vars.get ".RECIPEPREFIX").value
    if strStartsWith line rp then
      match st.current_rule with
      | none => (st, [], some (.mk "recipe without rule"))
      | some r =>
        let cmd := strTrim (strDropLen line rp.length)
        if cmd = "" then (st, [], none)
        else
          match expand efuel cmd st.vars with
          | .error e => (st, [], some (.mk e))
          | .ok cmdE =>
            ({st with current_rule := some {r with recipe := r.recipe ++ [cmdE]}}, [], none)
    else
      let fin : Makefile × List Event × Option MErr :=
        match st.current_rule with
        | none => (st, [], none)
        | some rule =>
          let st1 := {st with current_rule := none}
          let st2 :=
            if st1.default_target = none then
              {st1 with
                default_target := rule.targets.find? (fun t => !(t.data.head? == some '.'))}
            else st1
          let ins := RuleMap.insert st2.rule_map rule
          ({st2 with rule_map := ins.1}, ins.2.1, ins.2.2)
      match fin.2.2 with
      | some e => (fin.1, fin.2.1, some e)
      | none =>
        let st := fin.1
        let evs := fin.2.1
        let trimmed := strTrim line
        if trimmed.data.head? = some '#' ∨ trimmed = "" then (st, evs, none)
        else
          match splitOnce line ':' with
          | some td =>
            let dc : Bool := td.2.data.head? == some ':'
            let deps1 := if dc then strDropLen td.2 1 else td.2
            let dr := splitOnce deps1 ';'
            let deps := match dr with | some p => p.1 | none => deps1
            match expand efuel td.1 st.vars with
            | .error e => (st, evs, some (.mk e))
            | .ok tE =>
              match expand efuel deps st.vars with
              | .error e => (st, evs, some (.mk e))
              | .ok dE =>
                let newRule : Rule := ⟨splitWhitespace tE, splitWhitespace dE, [], dc⟩
                let st := {st with current_rule := some newRule}
                match dr with
                | none => (st, evs, none)
                | some p =>
                  let k :=
                    Makefile.parse_line efuel fuel st
                      ((st.vars.get ".RECIPEPREFIX").value ++ p.2)
                  (k.1, evs ++ k.2.1, k.2.2)
          | none =>
            match splitOnce line '=' with
            | some kv =>
              match expand efuel (strTrimStart kv.2) st.vars with
              | .error e => (st, evs, some (.mk e))
              | .ok vE =>
                match Vars.set st.vars kv.1 vE false with
                | .error e => (st, evs, some (.mk e))
                | .ok vars' => ({st with vars := vars'}, evs, none)
            | none => (st, evs, some (.mk "Invalid line type."))

/-- The line loop of `Makefile::parse`: feed each line to `parse_line`,
aborting on the first error.  The per-line structural fuel 2 covers the
only self-recursion (an inline recipe re-submitted once). -/
def parseLines (efuel : Nat) : Makefile → List String → Makefile × List Event × Option MErr
  | st, [] => (st, [], none)
  | st, l :: ls =>
    let r := Makefile.parse_line efuel 2 st l
    match r.2.2 with
    | some e => (r.1, r.2.1, some e)
    | none =>
      let k := parseLines efuel r.1 ls
      (k.1, r.2.1 ++ k.2.1, k.2.2)

/-- `Makefile::parse` from `src/src/lib/makefile.rs`: parse every line,
then two injected blank lines that terminate a trailing rule. -/
def Makefile.parse (efuel : Nat) (st : Makefile) (lines : List String) :
    Makefile × List Event × Option MErr :=
  parseLines efuel st (lines ++ ["", ""])

/-- `Makefile::new` from `src/src/lib/makefile.rs`, with the file already
read into its lines: initialize the state and run the parser. -/
def Makefile.new (efuel : Nat) (opts : Opts) (vars : Vars) (lines : List String) :
    Makefile × List Event × Option MErr :=
  Makefile.parse efuel ⟨opts, RuleMap.new, none, vars, none⟩ lines

/-- The names the executor can reach from the requested `roots`: the roots
themselves, plus the prerequisites of any indexed rule of a reached name. -/
inductive Reaches (m : RuleMap) (roots : List String) : String → Prop
  | root (t : String) : t ∈ roots → Reaches m roots t
  | step (n p : String) (idxs : List Nat) (i : Nat) (r : Rule) :
      Reaches m roots n → lookupIdxs m.by_target n = some idxs → i ∈ idxs →
      m.rules[i]? = some r → p ∈ r.prerequisites → Reaches m roots p

/-! ### Concrete fixtures used by witnesses and counterexamples -/

/-- All options off. -/
def optsF : Opts := ⟨false, false, false, [], []⟩

/-- Only `just_print` set. -/
def optsJP : Opts := ⟨false, false, true, [], []⟩

/-- Only `old_file = ["b"]`. -/
def optsOldB : Opts := ⟨false, false, false, ["b"], []⟩

/-- A filesystem with `a` (mtime 5) and `b` (mtime 3), shell always
succeeding. -/
def envAB : ExecEnv :=
  ⟨fun f => if f = "a" then some (some 5) else if f = "b" then some (some 3) else none,
   100, fun _ => some 0⟩

/-- An empty filesystem whose shell always exits 1. -/
def envFail : ExecEnv := ⟨fun _ => none, 100, fun _ => some 1⟩

/-- An empty filesystem, shell always succeeding. -/
def envNone : ExecEnv := ⟨fun _ => none, 100, fun _ => some 0⟩

/-- An empty variable store. -/
def vars0 : Vars := ⟨[]⟩

/-- A store whose only entry is a recursive `X` with the ill-formed value
`$(`. -/
def varsRecX : Vars := ⟨[("X", ⟨"$(", true⟩)]⟩

/-- The single-colon rule `a: b` with recipe `echo hi`. -/
def ruleAB : Rule := ⟨["a"], ["b"], ["echo hi"], false⟩

/-- A makefile state holding only `ruleAB`, all options off. -/
def mfAB : Makefile := ⟨optsF, ⟨[ruleAB], [("a", [0])]⟩, none, vars0, none⟩

/-- The single-colon rule `b:` with recipe `touch b`. -/
def ruleB : Rule := ⟨["b"], [], ["touch b"], false⟩

/-- A makefile state holding `ruleB`, with `b` listed in `old_file`. -/
def mfOldB : Makefile := ⟨optsOldB, ⟨[ruleB], [("b", [0])]⟩, none, vars0, none⟩

/-- A makefile state with an empty rule map and `b` listed in `old_file`. -/
def mfOldNoRule : Makefile := ⟨optsOldB, RuleMap.new, none, vars0, none⟩

/-- A single-colon rule for target `x`. -/
def ruleX : Rule := ⟨["x"], [], [":"], false⟩

/-- A double-colon rule for target `x`. -/
def ruleXdd : Rule := ⟨["x"], [], [":"], true⟩

/-- A rule map holding only `ruleX`, indexed under `x`. -/
def mX : RuleMap := ⟨[ruleX], [("x", [0])]⟩

/-- An empty parser state over the empty store, all options off. -/
def st0 : Makefile := ⟨optsF, RuleMap.new, none, vars0, none⟩

/-- The parse of the two-line makefile `a:` / `<tab>$X` against the
default store: the recipe line is non-blank before expansion but expands
to the empty string. -/
def mkX : Makefile × List Event × Option MErr :=
  Makefile.new 8 optsF (Vars.new []) ["a:", "\t$X"]

/-- A parser state over the empty store with only `just_print` set. -/
def mfJP : Makefile := ⟨optsJP, RuleMap.new, none, vars0, none⟩

example : expand 5 "$A with some text." (Vars.new [("A", "VALUE A")]) = .ok "VALUE A with some text." := rfl
example : expand 5 "$\x7bTESTA\x7d and $(TESTB)" (Vars.new [("TESTA", "VALUE A"), ("TESTB", "VALUE B")]) = .ok "VALUE A and VALUE B" := rfl
example : expand 5 "This is $$A!" (Vars.new [("A", "B")]) = .ok "This is $A!" := rfl
example : expand 5 "$\x7bTEST" (Vars.new [("TEST", "Value")]) = .error "Unclosed variable: \x7b" := rfl

/-! ### C2 — the mtime lookup -/

/-- C2 (corrected): the executor's mtime lookup consults the filesystem
first.  Any stat error yields `missing` even for names listed in
`old_file` or `new_file`; only on a successful stat is an `old_file` name
pinned to the epoch, then a `new_file` name to one year past now, and any
other name given the filesystem time. -/
theorem c2_mtime_stat_gate (mf : Makefile) (env : ExecEnv) (f : String) :
    (env.stat f = none → mf.get_mtime env f = none) ∧
    (∀ m, env.stat f = some m → f ∈ mf.opts.old_file → mf.get_mtime env f = some 0) ∧
    (∀ m, env.stat f = some m → f ∉ mf.opts.old_file → f ∈ mf.opts.new_file →
      mf.get_mtime env f = some (env.now + 365 * 24 * 60 * 60)) ∧
    (∀ m, env.stat f = some m → f ∉ mf.opts.old_file → f ∉ mf.opts.new_file →
      mf.get_mtime env f = m) := by
  refine ⟨fun h => ?_, fun m h h1 => ?_, fun m h h1 h2 => ?_, fun m h h1 h2 => ?_⟩
  · simp [Makefile.get_mtime, h]
  · simp [Makefile.get_mtime, h, h1]
  · simp [Makefile.get_mtime, h, h1, h2]
  · simp [Makefile.get_mtime, h, h1, h2]

/-- C2 witness: the stat-error clause and the epoch clause at concrete
inputs. -/
theorem c2_mtime_stat_gate_witness :
    Makefile.get_mtime mfOldNoRule envNone "b" = none ∧
    Makefile.get_mtime mfOldB envAB "b" = some 0 :=
  ⟨(c2_mtime_stat_gate mfOldNoRule envNone "b").1 rfl,
   (c2_mtime_stat_gate mfOldB envAB "b").2.1 (some 3) rfl (by decide)⟩

/-- C2 counterexample: `b` is listed in `old_file`, but because the stat
fails the lookup returns `missing`, not the epoch the claim promises. -/
theorem c2_mtime_counterexample :
    "b" ∈ mfOldNoRule.opts.old_file ∧
    Makefile.get_mtime mfOldNoRule envNone "b" = none ∧
    Makefile.get_mtime mfOldNoRule envNone "b" ≠ some 0 := by decide

/-! ### C8 — old_file targets -/

/-- C8 (corrected): when the target has at least one rule in the map,
visiting a target listed in `old_file` logs the up-to-date-(old) info line
and returns ok without any further event (so no recipe runs). -/
theorem c8_old_file_amended (fuel : Nat) (mf : Makefile) (env : ExecEnv) (t : String)
    (idxs : List Nat) (hl : lookupIdxs mf.rule_map.by_target t = some idxs)
    (hold : t ∈ mf.opts.old_file) :
    RuleMap.execute (fuel + 1) mf env t = ([Event.info (upToDateOldMsg t)], none) := by
  simp [RuleMap.execute, hl, hold]

/-- C8 witness: the amended statement at a concrete map and target. -/
theorem c8_old_file_witness :
    RuleMap.execute 5 mfOldB envAB "b" = ([Event.info (upToDateOldMsg "b")], none) :=
  c8_old_file_amended 4 mfOldB envAB "b" [0] (by decide) (by decide)

/-- C8 counterexample: with `b` in `old_file` but no rule for `b`, the
visit fails with "No rule to make target" instead of returning ok with the
up-to-date-(old) info line: the rules lookup precedes the old_file test. -/
theorem c8_counterexample :
    "b" ∈ mfOldNoRule.opts.old_file ∧
    RuleMap.execute 5 mfOldNoRule envAB "b" = ([], some (.mk (noRuleMsg "b"))) := by decide

/-! ### C3 — just_print and the `+` modifier -/

/-- With `just_print` set, the recipe loop echoes every non-empty line and
executes none of them, whatever their modifiers. -/
theorem executeLines_just_print_eq (opts : Opts) (env : ExecEnv)
    (h : opts.just_print = true) :
    ∀ ls : List String, (∀ l ∈ ls, l ≠ "") →
      Rule.executeLines opts env ls = (ls.map Event.echo, none) := by
  intro ls
  induction ls with
  | nil => intro _; rfl
  | cons line rest ih =>
    intro hne
    have hl : line ≠ "" := hne line (by simp)
    obtain ⟨cs⟩ := line
    cases cs with
    | nil => exact absurd rfl hl
    | cons c cs' =>
      simp only [Rule.executeLines, List.head?, h, or_true, ne_eq, if_true, ite_true]
      rw [ih (fun l hl' => hne l (List.mem_cons_of_mem _ hl'))]
      simp

/-- C3 (corrected): the `+` line prefix modifier has no effect on
execution.  With `just_print` set, every recipe line — `+`-prefixed or not
— is printed and none is executed: no shell spawn occurs. -/
theorem c3_just_print_amended (mf : Makefile) (env : ExecEnv) (r : Rule)
    (h : mf.opts.just_print = true) (hne : ∀ l ∈ r.recipe, l ≠ "") :
    Rule.execute r mf env = (r.recipe.map Event.echo, none) ∧
    ∀ s, Event.spawn s ∉ (Rule.execute r mf env).1 := by
  have he : Rule.execute r mf env = (r.recipe.map Event.echo, none) :=
    executeLines_just_print_eq mf.opts env h r.recipe hne
  refine ⟨he, fun s hs => ?_⟩
  rw [he] at hs
  simp at hs

/-- C3 witness: a one-line recipe under `just_print` is echoed only. -/
theorem c3_just_print_witness :
    Rule.execute ruleB mfJP envFail = ([Event.echo "touch b"], none) :=
  (c3_just_print_amended mfJP envFail ruleB (by decide) (by decide)).1

/-- C3 counterexample: a `+`-prefixed line under `just_print` is printed
but not executed — no shell spawn happens, contrary to the claim. -/
theorem c3_counterexample :
    Rule.executeLines optsJP envFail ["+echo hi"] = ([Event.echo "+echo hi"], none) ∧
    Event.spawn "+echo hi" ∉ (Rule.executeLines optsJP envFail ["+echo hi"]).1 := by decide

/-! ### C4 — line prefix modifiers -/

/-- Closed form of the recipe loop on a single non-empty line outside
just-print mode: the line is echoed unless its first character is `@`,
always spawned, and the shell status is checked unless its first character
is `-` or errors are ignored. -/
theorem executeLines_single (opts : Opts) (env : ExecEnv) (line : String) (c : Char)
    (cs : List Char) (hdata : line.data = c :: cs) (hjp : opts.just_print = false) :
    Rule.executeLines opts env [line] =
      ((if c = '@' then [Event.spawn line] else [Event.echo line, Event.spawn line]),
       if c = '-' ∨ opts.ignore_errors = true then none
       else
         match env.shell line with
         | some code =>
           if code = 0 then none
           else some (.mk ("Failed with code " ++ toString code ++ "."))
         | none => some (.mk "Killed.")) := by
  have hh : line.data.head? = some c := by rw [hdata]; rfl
  by_cases hat : c = '@' <;>
    by_cases hmi : c = '-' <;>
      by_cases hie : opts.ignore_errors = true <;>
        by_cases hpl : c = '+' <;>
          simp_all [Rule.executeLines] <;>
            (try (split <;> (try split) <;> rfl))

/-- C4 (corrected): only the first character of a recipe line is inspected
as a modifier, so exactly one modifier can take effect.  Outside just-print
mode the line is always spawned; it is echoed iff the first character is
not `@`; and a failing exit status is ignored iff the first character is
`-` (or `ignore_errors` is set). -/
theorem c4_modifier_amended (opts : Opts) (env : ExecEnv) (line : String) (c : Char)
    (cs : List Char) (hdata : line.data = c :: cs) (hjp : opts.just_print = false) :
    Event.spawn line ∈ (Rule.executeLines opts env [line]).1 ∧
    (Event.echo line ∈ (Rule.executeLines opts env [line]).1 ↔ c ≠ '@') ∧
    (∀ n : Int, env.shell line = some n → n ≠ 0 → opts.ignore_errors = false →
      ((Rule.executeLines opts env [line]).2 = none ↔ c = '-')) := by
  rw [executeLines_single opts env line c cs hdata hjp]
  refine ⟨?_, ?_, ?_⟩
  · by_cases hat : c = '@' <;> simp [hat]
  · by_cases hat : c = '@' <;> simp [hat]
  · intro n hsh hnz hie
    by_cases hmi : c = '-' <;> simp [hmi, hie, hsh, hnz]

/-- C4 witness: a `-`-prefixed line is spawned, echoed, and its failing
exit status is ignored. -/
theorem c4_modifier_witness :
    Event.spawn "-echo" ∈ (Rule.executeLines optsF envFail ["-echo"]).1 ∧
    (Rule.executeLines optsF envFail ["-echo"]).2 = none :=
  ⟨(c4_modifier_amended optsF envFail "-echo" '-' ['e', 'c', 'h', 'o'] rfl rfl).1,
   ((c4_modifier_amended optsF envFail "-echo" '-' ['e', 'c', 'h', 'o'] rfl rfl).2.2
      1 rfl (by decide) rfl).mpr rfl⟩

/-- C4 counterexample: on `-@echo hi` the `@` in second position does not
suppress the echo (the claim says `-@` both suppresses the echo and
ignores the exit status), and on `@-echo hi` the `-` in second position
does not ignore the failing exit status. -/
theorem c4_counterexample :
    Rule.executeLines optsF envFail ["-@echo hi"] =
      ([Event.echo "-@echo hi", Event.spawn "-@echo hi"], none) ∧
    Event.echo "-@echo hi" ∈ (Rule.executeLines optsF envFail ["-@echo hi"]).1 ∧
    Rule.executeLines optsF envFail ["@-echo hi"] =
      ([Event.spawn "@-echo hi"], some (.mk "Failed with code 1.")) := by decide

/-! ### C7 — set/get round trip -/

/-- C7 (corrected): for any name accepted by `set`, setting and then
getting returns the stored value and recursive flag — except for the
reserved key `.RECIPEPREFIX` stored with an empty value, where `get`
returns the synthesized default tab instead. -/
theorem c7_set_get_amended (vars vars' : Vars) (n v : String) (r : Bool)
    (hset : Vars.set vars n v r = .ok vars')
    (hrp : strTrim n = ".RECIPEPREFIX" → v ≠ "") :
    Vars.get vars' n = ⟨v, r⟩ := by
  simp only [Vars.set] at hset
  cases hcn : checkName (strTrim n).data with
  | some e => rw [hcn] at hset; cases hset
  | none =>
    rw [hcn] at hset
    cases hset
    unfold Vars.get
    by_cases hk : strTrim n = ".RECIPEPREFIX"
    · simp [hk, lookupVar, hrp hk]
    · simp [hk, lookupVar]

/-- C7 witness: an ordinary name round-trips with its recursive flag. -/
theorem c7_set_get_witness :
    Vars.set vars0 "FOO" "bar" true = .ok ⟨[("FOO", ⟨"bar", true⟩)]⟩ ∧
    Vars.get ⟨[("FOO", ⟨"bar", true⟩)]⟩ "FOO" = ⟨"bar", true⟩ :=
  ⟨rfl, c7_set_get_amended vars0 ⟨[("FOO", ⟨"bar", true⟩)]⟩ "FOO" "bar" true rfl (by decide)⟩

/-- C7 counterexample: `.RECIPEPREFIX` is an accepted name, yet setting it
to the empty value and getting it back yields the default tab, not the
stored `Variable("", false)` the claim promises. -/
theorem c7_counterexample :
    Vars.set vars0 ".RECIPEPREFIX" "" false = .ok ⟨[(".RECIPEPREFIX", ⟨"", false⟩)]⟩ ∧
    Vars.get ⟨[(".RECIPEPREFIX", ⟨"", false⟩)]⟩ ".RECIPEPREFIX" = ⟨"\t", false⟩ ∧
    ("\t" : String) ≠ "" :=
  ⟨rfl, by decide, by decide⟩

/-! ### C9 — empty target list -/

/-- C9 (corrected): a non-recipe, non-comment, non-blank line containing
`:` whose target part expands and splits to the empty list is accepted
without any error: the parser records a pending rule whose target list is
empty (shown here for a plain single-colon header with no inline recipe). -/
theorem c9_empty_targets_amended (efuel fuel : Nat) (st : Makefile) (line : String)
    (tpart dpart te de : String)
    (hnr : strStartsWith line (st.vars.get ".RECIPEPREFIX").value = false)
    (hcur : st.current_rule = none)
    (hne : strTrim line ≠ "")
    (hnc : (strTrim line).data.head? ≠ some '#')
    (hsp : splitOnce line ':' = some (tpart, dpart))
    (hdc : dpart.data.head? ≠ some ':')
    (hsc : splitOnce dpart ';' = none)
    (hte : expand efuel tpart st.vars = .ok te)
    (hts : splitWhitespace te = [])
    (hde : expand efuel dpart st.vars = .ok de) :
    Makefile.parse_line efuel (fuel + 1) st line =
      ({st with current_rule := some ⟨[], splitWhitespace de, [], false⟩}, [], none) := by
  unfold Makefile.parse_line
  simp [hnr, hcur, hne, hnc, hsp, hdc, hsc, hte, hde, hts]

/-- C9 witness: the amended statement at the concrete line `: foo`. -/
theorem c9_empty_targets_witness :
    Makefile.parse_line 8 2 st0 ": foo" =
      ({st0 with current_rule := some ⟨[], splitWhitespace " foo", [], false⟩}, [], none) :=
  c9_empty_targets_amended 8 1 st0 ": foo" "" " foo" "" " foo"
    (by decide) rfl (by decide) (by decide) (by decide) (by decide) (by decide)
    rfl (by decide) rfl

/-- C9 counterexample: parsing `: foo` returns no error and leaves a
pending rule with an empty target list, where the claim demands a parse
error. -/
theorem c9_counterexample :
    (Makefile.parse_line 8 2 st0 ": foo").2.2 = none ∧
    (Makefile.parse_line 8 2 st0 ": foo").1.current_rule =
      some ⟨[], ["foo"], [], false⟩ := by decide

/-! ### C10 — empty recipe lines and the executor's unwrap -/

/-- C10 (code_bug): the parser discards only pre-expansion blanks.  The
makefile `a:` / tab-`$X` (with `X` unset) parses successfully and stores
the empty string as a recipe line, and executing `a` on an empty
filesystem then panics at the executor's `line.chars().next().unwrap()`,
contradicting the claim that every stored recipe line is non-empty and the
unwrap cannot panic. -/
theorem c10_empty_recipe_panic :
    mkX.2.2 = none ∧
    mkX.1.rule_map.rules = [⟨["a"], [], [""], false⟩] ∧
    (Makefile.execute 5 mkX.1 envNone ["a"]).2 = some .panicked := by decide

/-! ### C5 — the rule map invariant -/

/-- Updating one key of the index changes only that key's lookup. -/
theorem lookupIdxs_btUpdate (bt : List (String × List Nat)) (k : String)
    (v : List Nat) (t : String) :
    lookupIdxs (btUpdate bt k v) t = if k = t then some v else lookupIdxs bt t := by
  induction bt with
  | nil => rfl
  | cons kv rest ih =>
    obtain ⟨k', v'⟩ := kv
    by_cases hk : k' = k
    · subst hk
      by_cases ht : k' = t <;> simp [btUpdate, lookupIdxs, ht]
    · by_cases ht : k' = t
      · subst ht
        have hkt : ¬ k = k' := fun h => hk h.symm
        simp [btUpdate, lookupIdxs, hk, hkt]
      · simp [btUpdate, lookupIdxs, hk, ht, ih]

/-- `wfEntry` is stable under appending a rule to the storage. -/
theorem wfEntry_append (rules : List Rule) (r : Rule) (idxs : List Nat)
    (h : wfEntry rules idxs) : wfEntry (rules ++ [r]) idxs := by
  obtain ⟨h1, h2, h3, h4⟩ := h
  have hg : ∀ i ∈ idxs, (rules ++ [r])[i]? = rules[i]? := by
    intro i hi
    rw [List.getElem?_append_left (h2 i hi)]
  refine ⟨h1, ?_, ?_, ?_⟩
  · intro i hi
    have := h2 i hi
    simp only [List.length_append, List.length_singleton]
    omega
  · intro i hi j hj
    simp only [flagAt, hg i hi, hg j hj]
    exact h3 i hi j hj
  · intro i hi hf
    apply h4 i hi
    simpa only [flagAt, hg i hi] using hf

/-- A one-index entry pointing at a stored rule is well formed. -/
theorem wfEntry_single (rules : List Rule) (index : Nat) (r : Rule)
    (h : rules[index]? = some r) : wfEntry rules [index] := by
  have hlt : index < rules.length := by
    by_contra hc
    push_neg at hc
    rw [List.getElem?_eq_none hc] at h
    cases h
  refine ⟨by simp, ?_, ?_, ?_⟩
  · intro i hi
    simp at hi
    subst hi
    exact hlt
  · intro i hi j hj
    simp at hi hj
    subst hi
    subst hj
    rfl
  · intro i _ _
    rfl

/-- The per-target loop of `RuleMap::insert` preserves the invariant,
given that `index` points at the inserted rule in the post-push storage. -/
theorem insertTargets_wf (rules' : List Rule) (rule : Rule) (index : Nat)
    (hidx : rules'[index]? = some rule) :
    ∀ (ts : List String) (bt : List (String × List Nat)),
      RuleMap.wf ⟨rules', bt⟩ →
      RuleMap.wf ⟨rules', (insertTargets rules' rule index ts bt).1⟩ := by
  intro ts
  induction ts with
  | nil => intro bt h; simpa [insertTargets] using h
  | cons t ts ih =>
    intro bt h
    cases hl : lookupIdxs bt t with
    | none =>
      have hbt : RuleMap.wf ⟨rules', btUpdate bt t [index]⟩ := by
        intro t' idxs h'
        rw [lookupIdxs_btUpdate] at h'
        by_cases ht : t = t'
        · rw [if_pos ht] at h'
          injection h' with h''
          subst h''
          exact wfEntry_single rules' index rule hidx
        · rw [if_neg ht] at h'
          exact h t' idxs h'
      simpa [insertTargets, hl] using ih (btUpdate bt t [index]) hbt
    | some idxs =>
      obtain ⟨hne0, hvalid, hflags, hsingle⟩ := h t idxs hl
      cases idxs with
      | nil => exact absurd rfl hne0
      | cons i0 itail =>
        have hi0lt : i0 < rules'.length := hvalid i0 (by simp)
        obtain ⟨r0, hr0⟩ : ∃ r0, rules'[i0]? = some r0 := by
          cases hg : rules'[i0]? with
          | none =>
            rw [List.getElem?_eq_none_iff] at hg
            omega
          | some r0 => exact ⟨r0, rfl⟩
        by_cases hfl : r0.double_colon ≠ rule.double_colon
        · simpa [insertTargets, hl, hr0, hfl] using h
        · push_neg at hfl
          by_cases hdc : rule.double_colon
          · have hall : ∀ i ∈ i0 :: itail, flagAt rules' i = some true := by
              intro i hi
              have heq := hflags i hi i0 (by simp)
              rw [heq]
              simp only [flagAt, hr0, Option.map_some']
              rw [hfl, hdc]
            have hbt : RuleMap.wf ⟨rules', btUpdate bt t (i0 :: itail ++ [index])⟩ := by
              intro t' idxs' h'
              rw [lookupIdxs_btUpdate] at h'
              by_cases ht : t = t'
              · rw [if_pos ht] at h'
                injection h' with h''
                subst h''
                have hallx : ∀ i ∈ i0 :: itail ++ [index], flagAt rules' i = some true := by
                  intro i hi
                  simp only [List.cons_append, List.mem_cons, List.mem_append,
                    List.mem_singleton] at hi
                  rcases hi with hi' | hi' | hi' | hi'
                  · rw [hi']
                    exact hall i0 (by simp)
                  · exact hall i (by simp [hi'])
                  · rw [hi']
                    simp only [flagAt, hidx, Option.map_some']
                    rw [hdc]
                  · cases hi'
                refine ⟨by simp, ?_, ?_, ?_⟩
                · intro i hi
                  simp only [List.cons_append, List.mem_cons, List.mem_append,
                    List.mem_singleton] at hi
                  rcases hi with hi' | hi' | hi' | hi'
                  · rw [hi']
                    exact hvalid i0 (by simp)
                  · exact hvalid i (by simp [hi'])
                  · rw [hi']
                    by_contra hc
                    push_neg at hc
                    rw [List.getElem?_eq_none hc] at hidx
                    cases hidx
                  · cases hi'
                · intro i hi j hj
                  rw [hallx i hi, hallx j hj]
                · intro i hi hf
                  rw [hallx i hi] at hf
                  simp at hf
              · rw [if_neg ht] at h'
                exact h t' idxs' h'
            simpa [insertTargets, hl, hr0, hfl, hdc] using
              ih (btUpdate bt t (i0 :: itail ++ [index])) hbt
          · simpa [insertTargets, hl, hr0, hfl, hdc] using ih bt h

/-- `RuleMap::insert` preserves the invariant. -/
theorem insert_wf (m : RuleMap) (rule : Rule) (h : RuleMap.wf m) :
    RuleMap.wf (RuleMap.insert m rule).1 := by
  have hidx : (m.rules ++ [rule])[m.rules.length]? = some rule := by
    rw [List.getElem?_append_right (le_refl _)]
    simp
  have hwf' : RuleMap.wf ⟨m.rules ++ [rule], m.by_target⟩ := by
    intro t idxs hl
    exact wfEntry_append _ _ _ (h t idxs hl)
  simpa [RuleMap.insert] using
    insertTargets_wf (m.rules ++ [rule]) rule m.rules.length hidx rule.targets
      m.by_target hwf'

/-- Any fold of inserts preserves the invariant. -/
theorem insertAll_wf_aux :
    ∀ (rs : List Rule) (m : RuleMap), RuleMap.wf m →
      RuleMap.wf (rs.foldl (fun m r => (RuleMap.insert m r).1) m) := by
  intro rs
  induction rs with
  | nil => intro m h; exact h
  | cons r rs ih => intro m h; exact ih _ (insert_wf m r h)

/-- The empty rule map satisfies the invariant. -/
theorem wf_new : RuleMap.wf RuleMap.new := by
  intro t idxs h
  simp [RuleMap.new, lookupIdxs] at h

/-- C5 (confirmed): after any sequence of inserts, every target's index
entry is non-empty, references stored rules that all share one
`double_colon` flag, and holds exactly one index when that flag is false;
moreover (for a single-target rule against an existing entry) a flag mix
fails with the colon-mode-conflict error, and a single-colon duplicate
only logs the warning, leaves the index unchanged and reports no error. -/
theorem c5_rule_map_invariant :
    (∀ rs : List Rule, RuleMap.wf (insertAll rs)) ∧
    (∀ (m : RuleMap) (r : Rule) (t : String) (idxs : List Nat) (i : Nat) (b : Bool),
      RuleMap.wf m → r.targets = [t] → lookupIdxs m.by_target t = some idxs →
      i ∈ idxs → flagAt m.rules i = some b → b ≠ r.double_colon →
      (RuleMap.insert m r).2.2 = some (.mk colonConflictMsg)) ∧
    (∀ (m : RuleMap) (r : Rule) (t : String) (idxs : List Nat) (i : Nat),
      RuleMap.wf m → r.targets = [t] → r.double_colon = false →
      lookupIdxs m.by_target t = some idxs → i ∈ idxs →
      flagAt m.rules i = some false →
      (RuleMap.insert m r).1.by_target = m.by_target ∧
      (RuleMap.insert m r).2.1 = [Event.warn dupWarnMsg] ∧
      (RuleMap.insert m r).2.2 = none) := by
  refine ⟨fun rs => insertAll_wf_aux rs RuleMap.new wf_new, ?_, ?_⟩
  · intro m r t idxs i b hwf htg hl hi hfb hneq
    obtain ⟨hne0, hvalid, hflags, _⟩ := hwf t idxs hl
    cases idxs with
    | nil => cases hi
    | cons i0 itail =>
      have hi0lt : i0 < m.rules.length := hvalid i0 (by simp)
      obtain ⟨r0, hr0⟩ : ∃ r0, m.rules[i0]? = some r0 := by
        cases hg : m.rules[i0]? with
        | none =>
          rw [List.getElem?_eq_none_iff] at hg
          omega
        | some r0 => exact ⟨r0, rfl⟩
      have heq := hflags i hi i0 (by simp)
      rw [hfb] at heq
      have hb : r0.double_colon = b := by
        simp [flagAt, hr0] at heq
        exact heq.symm
      have hr0' : (m.rules ++ [r])[i0]? = some r0 := by
        rw [List.getElem?_append_left hi0lt]
        exact hr0
      have hcond : r0.double_colon ≠ r.double_colon := by
        rw [hb]
        exact hneq
      simp [RuleMap.insert, htg, insertTargets, hl, hr0', hcond]
  · intro m r t idxs i hwf htg hdc hl hi hfb
    obtain ⟨hne0, hvalid, hflags, _⟩ := hwf t idxs hl
    cases idxs with
    | nil => cases hi
    | cons i0 itail =>
      have hi0lt : i0 < m.rules.length := hvalid i0 (by simp)
      obtain ⟨r0, hr0⟩ : ∃ r0, m.rules[i0]? = some r0 := by
        cases hg : m.rules[i0]? with
        | none =>
          rw [List.getElem?_eq_none_iff] at hg
          omega
        | some r0 => exact ⟨r0, rfl⟩
      have heq := hflags i hi i0 (by simp)
      rw [hfb] at heq
      have hb : r0.double_colon = false := by
        simp [flagAt, hr0] at heq
        exact heq
      have hr0' : (m.rules ++ [r])[i0]? = some r0 := by
        rw [List.getElem?_append_left hi0lt]
        exact hr0
      have hcond : ¬ (r0.double_colon ≠ r.double_colon) := by
        rw [hb, hdc]
        simp
      simp [RuleMap.insert, htg, insertTargets, hl, hr0', hcond, hb, hdc]

/-- Single-rule, single-target maps satisfy the invariant. -/
theorem wf_single (r : Rule) (t : String) : RuleMap.wf ⟨[r], [(t, [0])]⟩ := by
  intro t' idxs h
  simp only [lookupIdxs] at h
  by_cases ht : t = t'
  · rw [if_pos ht] at h
    injection h with h'
    subst h'
    exact wfEntry_single [r] 0 r rfl
  · rw [if_neg ht] at h
    cases h

/-- C5 witness: a duplicate single-colon insert keeps the invariant, a
colon-mode mix errors, and a single-colon duplicate leaves the index
unchanged. -/
theorem c5_invariant_witness :
    RuleMap.wf (insertAll [ruleX, ruleX]) ∧
    (RuleMap.insert mX ruleXdd).2.2 = some (.mk colonConflictMsg) ∧
    (RuleMap.insert mX ruleX).1.by_target = mX.by_target :=
  ⟨c5_rule_map_invariant.1 [ruleX, ruleX],
   c5_rule_map_invariant.2.1 mX ruleXdd "x" [0] 0 false (wf_single ruleX "x") rfl
     (by decide) (by decide) (by decide) (by decide),
   (c5_rule_map_invariant.2.2 mX ruleX "x" [0] 0 (wf_single ruleX "x") rfl rfl
     (by decide) (by decide) (by decide)).1⟩

/-! ### C6 — unclosed variable errors -/

/-- The empty store has no recursive variables. -/
theorem vars0_not_recursive : ∀ k, (Vars.get vars0 k).recursive = false := by
  intro k
  by_cases h : strTrim k = ".RECIPEPREFIX" <;>
    simp [Vars.get, vars0, lookupVar, h, blankVar, defaultRecipePrefixVar]

/-- Over a store with no recursive variables, the expander's character
loop succeeds exactly when the delimiter-only scan of the remaining input
empties the stack, and otherwise errors naming the scan's topmost (most
recently opened) unmatched delimiter. -/
theorem expandGo_scan (vars : Vars) (hnr : ∀ k, (Vars.get vars k).recursive = false)
    (recurse : String → Except String String) :
    ∀ (chars : List Char) (stack : List Frame) (buf : String) (hv : Bool),
      (scanGo chars (stack.map (fun f => f.openingDelimiter)) hv = [] →
        ∃ out, expandGo vars recurse chars stack buf hv = .ok out) ∧
      (∀ d ds, scanGo chars (stack.map (fun f => f.openingDelimiter)) hv = d :: ds →
        ∃ pb, expandGo vars recurse chars stack buf hv =
          .error ("Unclosed variable: " ++ String.singleton d ++ pb)) := by
  intro chars
  induction chars with
  | nil =>
    intro stack buf hv
    constructor
    · intro hscan
      cases stack with
      | nil => exact ⟨buf, rfl⟩
      | cons f stail => simp [scanGo] at hscan
    · intro d ds hscan
      cases stack with
      | nil => simp [scanGo] at hscan
      | cons f stail =>
        simp [scanGo] at hscan
        exact ⟨f.previousBuffer, by simp [expandGo, hscan.1]⟩
  | cons c rest ih =>
    intro stack buf hv
    by_cases hd : c = '$'
    · subst hd
      simpa [expandGo, scanGo] using ih stack (if !hv then buf else buf.push '$') (!hv)
    · by_cases hop : c = '(' ∨ c = '\x7b'
      · by_cases hhv : hv
        · simpa [expandGo, scanGo, hd, hop, hhv] using ih (⟨buf, c⟩ :: stack) "" false
        · simpa [expandGo, scanGo, hd, hop, hhv] using ih stack (buf.push c) hv
      · by_cases hcl : c = ')' ∨ c = '\x7d'
        · cases stack with
          | nil =>
            simpa [expandGo, scanGo, hd, hop, hcl] using ih [] (buf.push c) hv
          | cons f stail =>
            by_cases hmatch : (c = '\x7d' ∧ f.openingDelimiter = '\x7b') ∨
                (c = ')' ∧ f.openingDelimiter = '(')
            · have hrec : (vars.get buf).recursive = false := hnr buf
              simpa [expandGo, scanGo, hd, hop, hcl, hmatch, hrec] using
                ih stail (f.previousBuffer ++ (vars.get buf).value) false
            · simpa [expandGo, scanGo, hd, hop, hcl, hmatch] using
                ih (f :: stail) (buf.push c) hv
        · by_cases hhv : hv
          · simpa [expandGo, scanGo, hd, hop, hcl, hhv] using
              ih stack (buf ++ (vars.get (String.singleton c)).value) false
          · simpa [expandGo, scanGo, hd, hop, hcl, hhv] using ih stack (buf.push c) hv

/-- C6 (corrected): over a store with no recursive variables, `expand`
returns an unclosed-variable error exactly when the left-to-right scan
leaves unmatched `$(`/`${` openers, and the error names the **most
recently opened** (innermost) unmatched opener — its delimiter followed by
the text accumulated before it — not the first one. -/
theorem c6_unclosed_amended (fuel : Nat) (vars : Vars)
    (hnr : ∀ k, (Vars.get vars k).recursive = false) (s : String) :
    (scanDelims s = [] → ∃ out, expand (fuel + 1) s vars = .ok out) ∧
    (∀ d ds, scanDelims s = d :: ds →
      ∃ pb, expand (fuel + 1) s vars =
        .error ("Unclosed variable: " ++ String.singleton d ++ pb)) := by
  simpa [expand, scanDelims] using
    expandGo_scan vars hnr (fun t => expand fuel t vars) s.data [] "" false

/-- C6 witness: the empty store has no recursive variables, and on an
input whose scan leaves one unmatched `${` the error names it. -/
theorem c6_unclosed_witness :
    (∀ k, (Vars.get vars0 k).recursive = false) ∧
    (∃ pb, expand 5 "$\x7bA" vars0 =
      .error ("Unclosed variable: " ++ String.singleton '\x7b' ++ pb)) :=
  ⟨vars0_not_recursive,
   (c6_unclosed_amended 4 vars0 vars0_not_recursive "$\x7bA").2 '\x7b' [] (by decide)⟩

/-- C6 counterexample: on `${A$(B` both openers are unmatched; the claim
says the error names the first (`{`, which would render as
`Unclosed variable: {`), but the code names the last (`(` with its
accumulated text `A`).  And with a recursive variable whose value is `$(`,
`expand "$(X)"` errors although every opener of the input is matched. -/
theorem c6_counterexample :
    expand 5 "$\x7bA$(B" vars0 = .error "Unclosed variable: (A" ∧
    "Unclosed variable: (A" ≠ "Unclosed variable: \x7b" ∧
    expand 5 "$(X)" varsRecX = .error "Unclosed variable: (" :=
  ⟨rfl, by decide, rfl⟩

/-! ### C1 — no recipe runs on an up-to-date tree -/

/-- With `always_make` off and every prerequisite present and no newer
than the target, the prerequisite loop emits nothing, leaves
`should_execute` unchanged and visits nothing. -/
theorem execPrereqsGo_up_to_date (visit : String → List Event × Option MErr)
    (mf : Makefile) (env : ExecEnv) (tm : Nat)
    (ham : mf.opts.always_make = false) :
    ∀ (ps : List String) (should : Bool),
      (∀ p ∈ ps, ∃ pm, mf.get_mtime env p = some pm ∧ pm ≤ tm) →
      execPrereqsGo visit mf env (some tm) ps should = ([], should, none) := by
  intro ps
  induction ps with
  | nil => intro should _; rfl
  | cons p rest ih =>
    intro should hp
    obtain ⟨pm, hpm, hle⟩ := hp p (by simp)
    have hrest := ih should (fun q hq => hp q (by simp [hq]))
    have hgt : ¬ (pm > tm) := by omega
    simp [execPrereqsGo, ham, hpm, hgt, hrest]

/-- With `always_make` off, a present target mtime, and every referenced
rule's prerequisites present and no newer, the rule loop executes
nothing. -/
theorem execRulesGo_up_to_date (visit : String → List Event × Option MErr)
    (mf : Makefile) (env : ExecEnv) (tm : Nat)
    (ham : mf.opts.always_make = false) :
    ∀ idxs : List Nat,
      (∀ i ∈ idxs, ∀ r, mf.rule_map.rules[i]? = some r →
        ∀ p ∈ r.prerequisites, ∃ pm, mf.get_mtime env p = some pm ∧ pm ≤ tm) →
      (∀ i ∈ idxs, i < mf.rule_map.rules.length) →
      execRulesGo visit mf env (some tm) idxs = ([], false, none) := by
  intro idxs
  induction idxs with
  | nil => intro _ _; rfl
  | cons i rest ih =>
    intro hp hv
    have hilt : i < mf.rule_map.rules.length := hv i (by simp)
    obtain ⟨r, hr⟩ : ∃ r, mf.rule_map.rules[i]? = some r := by
      cases hg : mf.rule_map.rules[i]? with
      | none =>
        rw [List.getElem?_eq_none_iff] at hg
        omega
      | some r => exact ⟨r, rfl⟩
    have hpre := execPrereqsGo_up_to_date visit mf env tm ham r.prerequisites
      mf.opts.always_make (hp i (by simp) r hr)
    rw [ham] at hpre
    have hrest := ih (fun j hj => hp j (by simp [hj])) (fun j hj => hv j (by simp [hj]))
    simp [execRulesGo, hr, ham, hpre, hrest]

/-- A single visit of an up-to-date target produces exactly one
up-to-date info line (the "(old)" variant when the target is in
`old_file`) and no error. -/
theorem ruleMapExecute_up_to_date (fuel : Nat) (mf : Makefile) (env : ExecEnv)
    (t : String) (ham : mf.opts.always_make = false) (idxs : List Nat)
    (hl : lookupIdxs mf.rule_map.by_target t = some idxs)
    (hv : ∀ i ∈ idxs, i < mf.rule_map.rules.length)
    (tm : Nat) (htm : mf.get_mtime env t = some tm)
    (hp : ∀ i ∈ idxs, ∀ r, mf.rule_map.rules[i]? = some r →
      ∀ p ∈ r.prerequisites, ∃ pm, mf.get_mtime env p = some pm ∧ pm ≤ tm) :
    RuleMap.execute (fuel + 1) mf env t = ([Event.info (upToDateMsg t)], none) ∨
    RuleMap.execute (fuel + 1) mf env t = ([Event.info (upToDateOldMsg t)], none) := by
  by_cases hold : t ∈ mf.opts.old_file
  · right
    simp [RuleMap.execute, hl, hold]
  · left
    have hrules := execRulesGo_up_to_date (RuleMap.execute fuel mf env) mf env tm ham
      idxs hp hv
    simp [RuleMap.execute, hl, hold, htm, hrules]

/-- The requested-target loop over targets whose visits each produce one
up-to-date info line: no error, events are exactly such info lines, and
each target is reported. -/
theorem execTargets_up_to_date (fuel : Nat) (mf : Makefile) (env : ExecEnv) :
    ∀ ts : List String,
      (∀ t ∈ ts,
        RuleMap.execute fuel mf env t = ([Event.info (upToDateMsg t)], none) ∨
        RuleMap.execute fuel mf env t = ([Event.info (upToDateOldMsg t)], none)) →
      (execTargets fuel mf env ts).2 = none ∧
      (∀ e ∈ (execTargets fuel mf env ts).1, ∃ t ∈ ts,
        e = Event.info (upToDateMsg t) ∨ e = Event.info (upToDateOldMsg t)) ∧
      (∀ t ∈ ts,
        Event.info (upToDateMsg t) ∈ (execTargets fuel mf env ts).1 ∨
        Event.info (upToDateOldMsg t) ∈ (execTargets fuel mf env ts).1) := by
  intro ts
  induction ts with
  | nil => intro _; exact ⟨rfl, by simp [execTargets], by simp⟩
  | cons t rest ih =>
    intro h
    obtain ⟨herr, hev, hrep⟩ := ih (fun q hq => h q (by simp [hq]))
    rcases h t (by simp) with ht | ht <;>
    · refine ⟨by simp [execTargets, ht, herr], ?_, ?_⟩
      · intro e he
        simp [execTargets, ht] at he
        rcases he with he | he
        · exact ⟨t, by simp, by simp [he]⟩
        · obtain ⟨q, hq, hqe⟩ := hev e he
          exact ⟨q, by simp [hq], hqe⟩
      · intro q hq
        rcases List.mem_cons.mp hq with hq' | hq'
        · subst hq'
          simp [execTargets, ht]
        · rcases hrep q hq' with hh | hh
          · left
            simp [execTargets, ht, hh]
          · right
            simp [execTargets, ht, hh]

/-- C1 (confirmed): with `always_make` off, when every requested target
has a rule, every requested target and every name reachable through
prerequisites has a present mtime, and every reachable rule's target mtime
is at least each of its prerequisites' mtimes, then executing the
requested targets spawns no shell command and echoes no recipe line, the
run succeeds, and every visited (requested) target is reported up to date
(with the "(old)" variant for `old_file` targets). -/
theorem c1_no_recipe_when_up_to_date (fuel : Nat) (mf : Makefile) (env : ExecEnv)
    (targets : List String)
    (ham : mf.opts.always_make = false)
    (hnonempty : targets ≠ [])
    (hwf : RuleMap.wf mf.rule_map)
    (hhasrule : ∀ t ∈ targets, lookupIdxs mf.rule_map.by_target t ≠ none)
    (hmt : ∀ n, Reaches mf.rule_map targets n → mf.get_mtime env n ≠ none)
    (hord : ∀ n tm idxs i r p pm, Reaches mf.rule_map targets n →
      mf.get_mtime env n = some tm →
      lookupIdxs mf.rule_map.by_target n = some idxs → i ∈ idxs →
      mf.rule_map.rules[i]? = some r → p ∈ r.prerequisites →
      mf.get_mtime env p = some pm → pm ≤ tm) :
    (Makefile.execute (fuel + 1) mf env targets).2 = none ∧
    (∀ s, Event.spawn s ∉ (Makefile.execute (fuel + 1) mf env targets).1) ∧
    (∀ s, Event.echo s ∉ (Makefile.execute (fuel + 1) mf env targets).1) ∧
    (∀ t ∈ targets,
      Event.info (upToDateMsg t) ∈ (Makefile.execute (fuel + 1) mf env targets).1 ∨
      Event.info (upToDateOldMsg t) ∈ (Makefile.execute (fuel + 1) mf env targets).1) := by
  have hvisit : ∀ t ∈ targets,
      RuleMap.execute (fuel + 1) mf env t = ([Event.info (upToDateMsg t)], none) ∨
      RuleMap.execute (fuel + 1) mf env t = ([Event.info (upToDateOldMsg t)], none) := by
    intro t ht
    have hreach : Reaches mf.rule_map targets t := Reaches.root t ht
    obtain ⟨idxs, hl⟩ : ∃ idxs, lookupIdxs mf.rule_map.by_target t = some idxs := by
      cases hg : lookupIdxs mf.rule_map.by_target t with
      | none => exact absurd hg (hhasrule t ht)
      | some idxs => exact ⟨idxs, rfl⟩
    obtain ⟨tm, htm⟩ : ∃ tm, mf.get_mtime env t = some tm := by
      cases hg : mf.get_mtime env t with
      | none => exact absurd hg (hmt t hreach)
      | some tm => exact ⟨tm, rfl⟩
    obtain ⟨_, hvalid, _, _⟩ := hwf t idxs hl
    refine ruleMapExecute_up_to_date fuel mf env t ham idxs hl hvalid tm htm ?_
    intro i hi r hr p hp
    have hpreach : Reaches mf.rule_map targets p :=
      Reaches.step t p idxs i r hreach hl hi hr hp
    obtain ⟨pm, hpm⟩ : ∃ pm, mf.get_mtime env p = some pm := by
      cases hg : mf.get_mtime env p with
      | none => exact absurd hg (hmt p hpreach)
      | some pm => exact ⟨pm, rfl⟩
    exact ⟨pm, hpm, hord t tm idxs i r p pm hreach htm hl hi hr hp hpm⟩
  cases targets with
  | nil => exact absurd rfl hnonempty
  | cons t0 ts =>
    obtain ⟨herr, hev, hrep⟩ :=
      execTargets_up_to_date (fuel + 1) mf env (t0 :: ts) hvisit
    have hexec : Makefile.execute (fuel + 1) mf env (t0 :: ts) =
        execTargets (fuel + 1) mf env (t0 :: ts) := rfl
    refine ⟨by rw [hexec]; exact herr, ?_, ?_, ?_⟩
    · intro s hs
      rw [hexec] at hs
      obtain ⟨q, _, hq⟩ := hev _ hs
      rcases hq with hq | hq <;> cases hq
    · intro s hs
      rw [hexec] at hs
      obtain ⟨q, _, hq⟩ := hev _ hs
      rcases hq with hq | hq <;> cases hq
    · intro t ht
      rw [hexec]
      exact hrep t ht

/-- C1 witness: the one-rule makefile `a: b` with `a` newer than `b` runs
no recipe and reports `a` up to date. -/
theorem c1_witness :
    (Makefile.execute 5 mfAB envAB ["a"]).2 = none ∧
    (∀ s, Event.spawn s ∉ (Makefile.execute 5 mfAB envAB ["a"]).1) ∧
    (Event.info (upToDateMsg "a") ∈ (Makefile.execute 5 mfAB envAB ["a"]).1 ∨
      Event.info (upToDateOldMsg "a") ∈ (Makefile.execute 5 mfAB envAB ["a"]).1) := by
  have hmt : ∀ n, Reaches mfAB.rule_map ["a"] n → mfAB.get_mtime envAB n ≠ none := by
    intro n hn
    induction hn with
    | root t htv =>
      have : t = "a" := by simpa using htv
      subst this
      decide
    | step n p idxs i r hreach hl hi hr hp ih =>
      by_cases hna : "a" = n
      · subst hna
        have hidxs : idxs = [0] := by
          have : lookupIdxs mfAB.rule_map.by_target "a" = some [0] := by decide
          rw [this] at hl
          injection hl with h
          exact h.symm
        subst hidxs
        have hieq : i = 0 := by simpa using hi
        subst hieq
        have hreq : r = ruleAB := by
          have : mfAB.rule_map.rules[0]? = some ruleAB := by decide
          rw [this] at hr
          injection hr with h
          exact h.symm
        subst hreq
        have hpb : p = "b" := by simpa [ruleAB] using hp
        subst hpb
        decide
      · have : lookupIdxs mfAB.rule_map.by_target n = none := by
          simp [mfAB, lookupIdxs, hna]
        rw [this] at hl
        cases hl
  have h := c1_no_recipe_when_up_to_date 4 mfAB envAB ["a"] rfl (by simp)
    (wf_single ruleAB "a")
    (by intro t ht; simp at ht; subst ht; decide)
    hmt
    (by
      intro n tm idxs i r p pm hreach htm hl hi hr hp hpm
      by_cases hna : "a" = n
      · subst hna
        have htm5 : mfAB.get_mtime envAB "a" = some 5 := by decide
        rw [htm5] at htm
        injection htm with htm
        subst htm
        have hidxs : idxs = [0] := by
          have h0 : lookupIdxs mfAB.rule_map.by_target "a" = some [0] := by decide
          rw [h0] at hl
          injection hl with h0'
          exact h0'.symm
        subst hidxs
        have hieq : i = 0 := by simpa using hi
        subst hieq
        have hreq : r = ruleAB := by
          have h0 : mfAB.rule_map.rules[0]? = some ruleAB := by decide
          rw [h0] at hr
          injection hr with h0'
          exact h0'.symm
        subst hreq
        have hpb : p = "b" := by simpa [ruleAB] using hp
        subst hpb
        have hpm3 : mfAB.get_mtime envAB "b" = some 3 := by decide
        rw [hpm3] at hpm
        injection hpm with hpm
        subst hpm
        omega
      · have : lookupIdxs mfAB.rule_map.by_target n = none := by
          simp [mfAB, lookupIdxs, hna]
        rw [this] at hl
        cases hl)
  exact ⟨h.1, h.2.1, h.2.2.2 "a" (by simp)⟩

end Omake
